import Mathlib

/-!
Verification of the dcmri exchange signal model and concentration inversion
component against its specification.  The signal module itself is not among
the provided sources (only its test suite and the package init file are), so
every definition below is modelled from the specification document, faithful
to its words; the test suite fixes the call signatures.
-/

open Real Filter Topology
open scoped Classical

noncomputable section

namespace Sig

/-- Modelled from the spec: flip angles are given in degrees and converted to
radians before trigonometric formulas are applied (the concrete scenarios in
the spec use degree-valued flip angles such as 45). -/
def rad (FA : ℝ) : ℝ := FA * π / 180

/-- Modelled from the spec (sig module absent from src): closed-form
steady-state spoiled-gradient-echo signal of a single compartment with
relaxation rate R1, repetition time TR and flip angle FA, at unit scale. -/
def ssRaw (R1 TR FA : ℝ) : ℝ :=
  sin (rad FA) * (1 - exp (-(TR * R1))) / (1 - cos (rad FA) * exp (-(TR * R1)))

/-- Modelled from the spec: the trivial linear calibration signal
S = R1 * S0 (no exchange, no sequence parameters). -/
def signal_lin (R1 S0 : ℝ) : ℝ := S0 * R1

/-- Modelled from the spec: T2-weighted signal, mono-exponential transverse
decay over the echo time. -/
def signal_t2w (R2 S0 TE : ℝ) : ℝ := S0 * exp (-(TE * R2))

/-- Modelled from the spec: susceptibility contrast signal combining
longitudinal saturation recovery over TR with transverse decay over TE. -/
def signal_dsc (R1 R2 S0 TR TE : ℝ) : ℝ :=
  S0 * (1 - exp (-(TR * R1))) * exp (-(TE * R2))

/-- Modelled from the spec: unit-scale free/saturation-recovery readout after
recovery time TC. -/
def freeRaw (R1 TC FA : ℝ) : ℝ := sin (rad FA) * (1 - exp (-(TC * R1)))

/-- Modelled from the spec: free-recovery signal from a reference rate R10,
or full saturation recovery when R10 is unset. -/
def signal_free (S0 R1 TC FA : ℝ) (R10 : Option ℝ) : ℝ :=
  match R10 with
  | none => S0 * freeRaw R1 TC FA
  | some r10 => S0 * freeRaw R1 TC FA / freeRaw r10 TC FA

/-- Modelled from the spec: longitudinal magnetization after a train of
identical pulses with cosine factor cFA, recovering toward equilibrium 1 with
inter-pulse decay factor E, starting from Minit. -/
def spgrM (E cFA Minit : ℝ) : ℕ → ℝ
  | 0 => Minit
  | n + 1 => 1 - (1 - cFA * spgrM E cFA Minit n) * E

/-- Modelled from the spec: unit-scale spoiled-gradient-recalled signal read
out at the centre time TC of a finite pulse train (pulse spacing TR), after
n0 preparation pulses and an optional preparation interval TP (saturation
recovery during TP when supplied). -/
def spgrRaw (R1 TC TR FA : ℝ) (TP : Option ℝ) (n0 : ℕ) : ℝ :=
  sin (rad FA) *
    spgrM (exp (-(TR * R1))) (cos (rad FA))
      (match TP with
       | none => 1
       | some tp => 1 - exp (-(tp * R1)))
      (n0 + Nat.floor (TC / TR))

/-- Modelled from the spec: an exchange-rate or baseline-time entry is either
a finite real number or the distinguished value infinity; the two are never
considered equal (literal equality on the representation). -/
inductive EVal where
  | fin (x : ℝ)
  | inf

/-- Modelled from the spec: reciprocal of an extended baseline time, with an
infinite time denoting a zero baseline rate. -/
def extInv : EVal → ℝ
  | .fin t => 1 / t
  | .inf => 0

/-- Modelled from the spec: division of a real by an extended value; division
by infinity yields zero. -/
def extDivBy (x : ℝ) : EVal → ℝ
  | .fin t => x / t
  | .inf => 0

/-- Modelled from the spec: the finite value carried by an entry (zero for
infinity; only used after entries have been checked to be finite). -/
def extVal : EVal → ℝ
  | .fin x => x
  | .inf => 0

/-- Modelled from the spec: a relaxation-rate argument is either a scalar
(single compartment) or a per-compartment sequence. -/
inductive RIn where
  | scalar (r : ℝ)
  | vec (rs : List ℝ)

/-- Modelled from the spec: the water-exchange argument Fw is either a scalar
(broadcast to all off-diagonal entries, diagonal unconstrained) or a full
matrix over compartments. -/
inductive FwIn where
  | scalar (f : EVal)
  | matrix (M : List (List EVal))

/-- Modelled from the spec: the exchange regime recognised at validation
time - the no-exchange limit, the fast/instantaneous-exchange limit, or a
general finite exchange regime carrying the full matrix of finite rates
(only its off-diagonal entries are used by the solve; diagonal flow is
handled separately). -/
inductive ExchKind where
  | zero
  | fast
  | gen (F : List (List ℝ))

/-- Modelled from the spec: broadcast of a scalar exchange rate to a full
rate matrix - all off-diagonal entries equal the scalar, diagonal
unconstrained (zero). -/
def broadcastOff (n : ℕ) (x : ℝ) : List (List ℝ) :=
  (List.range n).map (fun i => (List.range n).map (fun j => if i = j then 0 else x))

/-- The finite rate values of an exchange matrix whose entries have been
checked to be finite. -/
def offRates (M : List (List EVal)) : List (List ℝ) :=
  M.map (fun row => row.map extVal)

/-- Matrix entry access for the list-of-rows exchange matrix. -/
def ent (M : List (List EVal)) (i j : ℕ) : EVal := (M.getD i []).getD j (EVal.fin 0)

/-- Modelled from the spec: the exchange matrix must be square with dimension
equal to the compartment count. -/
def sqShape (n : ℕ) (M : List (List EVal)) : Prop :=
  M.length = n ∧ ∀ row ∈ M, row.length = n

/-- Modelled from the spec: the exchange matrix must be exactly symmetric
(literal equality of entries, no tolerance). -/
def symmOff (n : ℕ) (M : List (List EVal)) : Prop :=
  ∀ i j, i < n → j < n → ent M i j = ent M j i

/-- All off-diagonal entries are the literal finite zero (no-exchange limit). -/
def allOffZero (n : ℕ) (M : List (List EVal)) : Prop :=
  ∀ i j, i < n → j < n → i ≠ j → ent M i j = EVal.fin 0

/-- All off-diagonal entries are the literal infinity (fast-exchange limit). -/
def allOffInf (n : ℕ) (M : List (List EVal)) : Prop :=
  ∀ i j, i < n → j < n → i ≠ j → ent M i j = EVal.inf

/-- All off-diagonal entries are finite (general finite-exchange regime). -/
def allOffFin (n : ℕ) (M : List (List EVal)) : Prop :=
  ∀ i j, i < n → j < n → i ≠ j → ∃ x, ent M i j = EVal.fin x

/-- All diagonal (external flow) entries are finite. -/
def diagFin (n : ℕ) (M : List (List EVal)) : Prop :=
  ∀ i, i < n → ∃ x, ent M i i = EVal.fin x

/-- The diagonal (external flow) entries of the exchange matrix. -/
def diagOf (n : ℕ) (M : List (List EVal)) : List ℝ :=
  (List.range n).map (fun i => extVal (ent M i i))

/-- Modelled from the spec: validation of the exchange argument against the
compartment count n, performed before any numeric work.  A scalar is
broadcast; a matrix must be square of dimension n, exactly symmetric, with
finite diagonal, and with off-diagonal entries that are all zero, all
infinite, or all finite - a mix of finite and infinite entries is an
inconsistent exchange system and is a hard error. -/
def checkFw (n : ℕ) (Fw : FwIn) : Except String (List ℝ × ExchKind) :=
  match Fw with
  | .scalar e =>
    match e with
    | .inf => .ok (List.replicate n 0, .fast)
    | .fin x =>
      if x = 0 then .ok (List.replicate n 0, .zero)
      else .ok (List.replicate n 0, .gen (broadcastOff n x))
  | .matrix M =>
    if sqShape n M then
      if symmOff n M then
        if diagFin n M then
          if allOffZero n M then .ok (diagOf n M, .zero)
          else if allOffInf n M then .ok (diagOf n M, .fast)
          else if allOffFin n M then .ok (diagOf n M, .gen (offRates M))
          else .error "exchange matrix mixes finite and infinite rates"
        else .error "diagonal flow entries must be finite"
      else .error "exchange matrix must be symmetric"
    else .error "exchange matrix dimensions must match the compartment count"

/-- Per-compartment effective rates: relaxation plus external flow per unit
volume (flow exchanges magnetization with a fully relaxed reservoir, which
acts as additional relaxation at rate d/v). -/
def rhoList (rs vs dg : List ℝ) : List ℝ :=
  List.zipWith (fun r dv => r + dv) rs (List.zipWith (fun d v => d / v) dg vs)

/-- Volume-weighted sum of a per-compartment quantity. -/
def dotL (a b : List ℝ) : ℝ := (List.zipWith (fun x y => x * y) a b).sum

/-- Volume-weighted mean relaxation rate (fast-exchange limit). -/
def meanRate (ρ vs : List ℝ) : ℝ := dotL vs ρ / vs.sum

/-- Volume-weighted mean of two effective rates. -/
def rhoBar (ρ1 ρ2 v1 v2 : ℝ) : ℝ := (v1 * ρ1 + v2 * ρ2) / (v1 + v2)

/-- Two-site exchange evolution: first diagonal entry of the coupled
relaxation-exchange generator. -/
def exA11 (ρ1 v1 f : ℝ) : ℝ := -(ρ1 + f / v1)

/-- Two-site exchange evolution: second diagonal entry of the generator. -/
def exA22 (ρ2 v2 f : ℝ) : ℝ := -(ρ2 + f / v2)

/-- Half trace of the two-site generator. -/
def exH (ρ1 ρ2 v1 v2 f : ℝ) : ℝ := (exA11 ρ1 v1 f + exA22 ρ2 v2 f) / 2

/-- Half difference of the diagonal of the two-site generator. -/
def exD (ρ1 ρ2 v1 v2 f : ℝ) : ℝ := (exA11 ρ1 v1 f - exA22 ρ2 v2 f) / 2

/-- Discriminant root of the two-site generator (the eigenvalue half-gap). -/
def exQ (ρ1 ρ2 v1 v2 f : ℝ) : ℝ :=
  Real.sqrt (exD ρ1 ρ2 v1 v2 f ^ 2 + f / v2 * (f / v1))

/-- Larger eigenvalue of the two-site generator. -/
def exLp (ρ1 ρ2 v1 v2 f : ℝ) : ℝ := exH ρ1 ρ2 v1 v2 f + exQ ρ1 ρ2 v1 v2 f

/-- Smaller eigenvalue of the two-site generator. -/
def exLm (ρ1 ρ2 v1 v2 f : ℝ) : ℝ := exH ρ1 ρ2 v1 v2 f - exQ ρ1 ρ2 v1 v2 f

/-- Decay factor of the slow eigenmode over one repetition time. -/
def exEp (ρ1 ρ2 v1 v2 f TR : ℝ) : ℝ := exp (TR * exLp ρ1 ρ2 v1 v2 f)

/-- Decay factor of the fast eigenmode over one repetition time. -/
def exEm (ρ1 ρ2 v1 v2 f TR : ℝ) : ℝ := exp (TR * exLm ρ1 ρ2 v1 v2 f)

/-- Even combination of the eigenmode decay factors. -/
def evC (ρ1 ρ2 v1 v2 f TR : ℝ) : ℝ :=
  (exEp ρ1 ρ2 v1 v2 f TR + exEm ρ1 ρ2 v1 v2 f TR) / 2

/-- Odd combination of the eigenmode decay factors. -/
def evS (ρ1 ρ2 v1 v2 f TR : ℝ) : ℝ :=
  (exEp ρ1 ρ2 v1 v2 f TR - exEm ρ1 ρ2 v1 v2 f TR) / 2

/-- Entry (1,1) of the inter-pulse evolution operator exp(TR A). -/
def exE11 (ρ1 ρ2 v1 v2 f TR : ℝ) : ℝ :=
  evC ρ1 ρ2 v1 v2 f TR + evS ρ1 ρ2 v1 v2 f TR * (exD ρ1 ρ2 v1 v2 f / exQ ρ1 ρ2 v1 v2 f)

/-- Entry (1,2) of the inter-pulse evolution operator exp(TR A). -/
def exE12 (ρ1 ρ2 v1 v2 f TR : ℝ) : ℝ :=
  evS ρ1 ρ2 v1 v2 f TR * (f / v2 / exQ ρ1 ρ2 v1 v2 f)

/-- Entry (2,1) of the inter-pulse evolution operator exp(TR A). -/
def exE21 (ρ1 ρ2 v1 v2 f TR : ℝ) : ℝ :=
  evS ρ1 ρ2 v1 v2 f TR * (f / v1 / exQ ρ1 ρ2 v1 v2 f)

/-- Entry (2,2) of the inter-pulse evolution operator exp(TR A). -/
def exE22 (ρ1 ρ2 v1 v2 f TR : ℝ) : ℝ :=
  evC ρ1 ρ2 v1 v2 f TR - evS ρ1 ρ2 v1 v2 f TR * (exD ρ1 ρ2 v1 v2 f / exQ ρ1 ρ2 v1 v2 f)

/-- Modelled from the spec: general finite-exchange steady-state signal for
two compartments.  The coupled longitudinal evolution operator over one TR is
built from the per-compartment effective rates and the exchange rate f, the
steady-state magnetization vector of the pulsed sequence is obtained from the
linear system (I - cos FA * E) M = (I - E) v, and the result is contracted
with the volume fractions. -/
def gen2Raw (ρ1 ρ2 v1 v2 f TR FA : ℝ) : ℝ :=
  let c := cos (rad FA)
  let e11 := exE11 ρ1 ρ2 v1 v2 f TR
  let e12 := exE12 ρ1 ρ2 v1 v2 f TR
  let e21 := exE21 ρ1 ρ2 v1 v2 f TR
  let e22 := exE22 ρ1 ρ2 v1 v2 f TR
  let b11 := 1 - c * e11
  let b12 := -(c * e12)
  let b21 := -(c * e21)
  let b22 := 1 - c * e22
  let y1 := v1 - (e11 * v1 + e12 * v2)
  let y2 := v2 - (e21 * v1 + e22 * v2)
  sin (rad FA) * ((b22 * y1 - b12 * y2 + (b11 * y2 - b21 * y1)) / (b11 * b22 - b12 * b21))

/-- Modelled from the spec: the coupled longitudinal relaxation-exchange
generator over the compartments - decay and flow on the diagonal, exchange as
off-diagonal coupling (entry i j is the rate from compartment j into i per
unit volume of j; only off-diagonal entries of F are consulted). -/
def exchGenerator (n : ℕ) (ρ v : Fin n → ℝ) (F : Fin n → Fin n → ℝ) :
    Matrix (Fin n) (Fin n) ℝ :=
  Matrix.of fun i j =>
    if i = j then -(ρ i + (∑ k, if k = i then 0 else F i k) / v i)
    else F i j / v j

/-- Modelled from the spec: general n-compartment finite-exchange
steady-state signal.  The evolution operator over one repetition time is the
exponential of the generator, the steady-state magnetization vector of the
pulsed sequence solves the linear system (I - cos FA * E) M = (I - E) v, and
the result is contracted with the volume fractions. -/
def genMatRaw (n : ℕ) (ρ v : Fin n → ℝ) (F : Fin n → Fin n → ℝ)
    (TR FA : ℝ) : ℝ :=
  let A := exchGenerator n ρ v F
  let E := NormedSpace.exp ℝ (TR • A)
  let B := 1 - cos (rad FA) • E
  let M := Matrix.mulVec B⁻¹ (Matrix.mulVec (1 - E) v)
  sin (rad FA) * ∑ i, M i

/-- Modelled from the spec: magnetization vector of a pulse train with
exchange - each pulse scales the vector by cos FA, and between pulses it
recovers toward the equilibrium vector through the evolution operator E. -/
def spgrMzVec (n : ℕ) (E : Matrix (Fin n) (Fin n) ℝ) (c : ℝ)
    (veq Minit : Fin n → ℝ) : ℕ → Fin n → ℝ
  | 0 => Minit
  | k + 1 => veq + Matrix.mulVec E (c • spgrMzVec n E c veq Minit k - veq)

/-- Modelled from the spec: general n-compartment finite-exchange
spoiled-gradient-recalled signal, read out after n0 preparation pulses plus
the pulses fitting in the centre time TC, with saturation recovery over an
optional preparation interval TP. -/
def genMatSpgrRaw (n : ℕ) (ρ v : Fin n → ℝ) (F : Fin n → Fin n → ℝ)
    (TC TR FA : ℝ) (TP : Option ℝ) (n0 : ℕ) : ℝ :=
  let A := exchGenerator n ρ v F
  let E := NormedSpace.exp ℝ (TR • A)
  let Minit : Fin n → ℝ :=
    match TP with
    | none => v
    | some tp => v - Matrix.mulVec (NormedSpace.exp ℝ (tp • A)) v
  sin (rad FA) *
    ∑ i, spgrMzVec n E (cos (rad FA)) v Minit (n0 + Nat.floor (TC / TR)) i

/-- Modelled from the spec: unit-scale multi-compartment steady-state signal.
The no-exchange limit is the volume-weighted sum of independent
single-compartment signals; the fast-exchange limit is computed from the
single volume-weighted mean effective rate; finite exchange is the general
coupled solve - the two-compartment case through the closed-form
eigendecomposition of the evolution operator, larger systems through the
generic matrix exponential. -/
def mcSsRaw (rs vs dg : List ℝ) (k : ExchKind) (TR FA : ℝ) : Except String ℝ :=
  let ρ := rhoList rs vs dg
  match k with
  | .zero => .ok (dotL vs (ρ.map (fun r => ssRaw r TR FA)))
  | .fast => .ok (vs.sum * ssRaw (meanRate ρ vs) TR FA)
  | .gen F =>
    match ρ, vs with
    | [ρ1, ρ2], [v1, v2] =>
      .ok (gen2Raw ρ1 ρ2 v1 v2 ((F.getD 0 []).getD 1 0) TR FA)
    | _, _ =>
      .ok (genMatRaw ρ.length (fun i => ρ.get i) (fun i => vs.getD i.1 0)
        (fun i j => (F.getD i.1 []).getD j.1 0) TR FA)

/-- Modelled from the spec: unit-scale multi-compartment
spoiled-gradient-recalled signal - the closed-form no-exchange and
fast-exchange limits, and the generic finite-exchange pulse-train solve. -/
def mcSpgrRaw (rs vs dg : List ℝ) (k : ExchKind) (TC TR FA : ℝ) (TP : Option ℝ)
    (n0 : ℕ) : Except String ℝ :=
  let ρ := rhoList rs vs dg
  match k with
  | .zero => .ok (dotL vs (ρ.map (fun r => spgrRaw r TC TR FA TP n0)))
  | .fast => .ok (vs.sum * spgrRaw (meanRate ρ vs) TC TR FA TP n0)
  | .gen F =>
    .ok (genMatSpgrRaw ρ.length (fun i => ρ.get i) (fun i => vs.getD i.1 0)
      (fun i j => (F.getD i.1 []).getD j.1 0) TC TR FA TP n0)

/-- Modelled from the spec: uncalibrated steady-state signal.  Validation is
performed before any numeric work: a supplied v requires a per-compartment R1
of the same length; the exchange argument is validated and broadcast; a
single-compartment call (v absent, scalar R1) never consults Fw. -/
def signal_ss_u (S0 : ℝ) (R1 : RIn) (TR FA : ℝ) (v : Option (List ℝ))
    (Fw : FwIn) : Except String ℝ :=
  match v with
  | none =>
    match R1 with
    | .scalar r => .ok (S0 * ssRaw r TR FA)
    | .vec _ => .error "R1 must be a scalar when volume fractions are not supplied"
  | some vs =>
    match R1 with
    | .scalar _ => .error "R1 must be a per-compartment sequence when v is supplied"
    | .vec rs =>
      if rs.length = vs.length then
        (checkFw vs.length Fw).bind
          (fun p => (mcSsRaw rs vs p.1 p.2 TR FA).map (fun x => S0 * x))
      else .error "volume fractions and relaxation rates have mismatched lengths"

/-- Modelled from the spec: steady-state signal, optionally calibrated against
a reference rate R10 so that the formula reduces to S0 when R1 equals R10:
the scale is divided by the signal of the same call evaluated at R10. -/
def signal_ss (S0 : ℝ) (R1 : RIn) (TR FA : ℝ) (v : Option (List ℝ)) (Fw : FwIn)
    (R10 : Option RIn) : Except String ℝ :=
  match R10 with
  | none => signal_ss_u S0 R1 TR FA v Fw
  | some rr =>
    (signal_ss_u 1 rr TR FA v Fw).bind
      (fun sref => (signal_ss_u 1 R1 TR FA v Fw).map (fun s => S0 * s / sref))

/-- Modelled from the spec: uncalibrated spoiled-gradient-recalled signal with
the same validation stage as the steady-state model. -/
def signal_spgr_u (S0 : ℝ) (R1 : RIn) (TC TR FA : ℝ) (TP : Option ℝ)
    (v : Option (List ℝ)) (Fw : FwIn) (n0 : ℕ) : Except String ℝ :=
  match v with
  | none =>
    match R1 with
    | .scalar r => .ok (S0 * spgrRaw r TC TR FA TP n0)
    | .vec _ => .error "R1 must be a scalar when volume fractions are not supplied"
  | some vs =>
    match R1 with
    | .scalar _ => .error "R1 must be a per-compartment sequence when v is supplied"
    | .vec rs =>
      if rs.length = vs.length then
        (checkFw vs.length Fw).bind
          (fun p => (mcSpgrRaw rs vs p.1 p.2 TC TR FA TP n0).map (fun x => S0 * x))
      else .error "volume fractions and relaxation rates have mismatched lengths"

/-- Modelled from the spec: spoiled-gradient-recalled signal, optionally
calibrated against a reference rate R10 exactly as the steady-state model. -/
def signal_spgr (S0 : ℝ) (R1 : RIn) (TC TR FA : ℝ) (TP : Option ℝ)
    (v : Option (List ℝ)) (Fw : FwIn) (n0 : ℕ) (R10 : Option RIn) :
    Except String ℝ :=
  match R10 with
  | none => signal_spgr_u S0 R1 TC TR FA TP v Fw n0
  | some rr =>
    (signal_spgr_u 1 rr TC TR FA TP v Fw n0).bind
      (fun sref =>
        (signal_spgr_u 1 R1 TC TR FA TP v Fw n0).map (fun s => S0 * s / sref))

/-- Column t of an (n,T) per-compartment time series: the per-compartment
rate vector at sample t. -/
def colAt (rss : List (List ℝ)) (t : ℕ) : List ℝ :=
  rss.map (fun row => row.getD t 0)

/-- Number of time samples of an (n,T) per-compartment time series. -/
def tsLen (rss : List (List ℝ)) : ℕ := (rss.headD []).length

/-- Modelled from the spec: steady-state signal for an (n,T) per-compartment
relaxation time series - the signal is computed per time sample and returned
as a length-T series, already volume-weighted across compartments.  Rows of
unequal length are a shape error. -/
def signal_ss_ts (S0 : ℝ) (rss : List (List ℝ)) (TR FA : ℝ) (vs : List ℝ)
    (Fw : FwIn) : Except String (List ℝ) :=
  if ∀ row ∈ rss, row.length = tsLen rss then
    (List.range (tsLen rss)).mapM
      (fun t => signal_ss_u S0 (.vec (colAt rss t)) TR FA (some vs) Fw)
  else .error "time-series rows must have equal length"

/-- Modelled from the spec: spoiled-gradient-recalled signal for an (n,T)
per-compartment relaxation time series, per time sample. -/
def signal_spgr_ts (S0 : ℝ) (rss : List (List ℝ)) (TC TR FA : ℝ)
    (TP : Option ℝ) (vs : List ℝ) (Fw : FwIn) (n0 : ℕ) :
    Except String (List ℝ) :=
  if ∀ row ∈ rss, row.length = tsLen rss then
    (List.range (tsLen rss)).mapM
      (fun t => signal_spgr_u S0 (.vec (colAt rss t)) TC TR FA TP (some vs)
        Fw n0)
  else .error "time-series rows must have equal length"

/-- Modelled from the spec: baseline signal estimated as the mean of the
first n0 samples. -/
def smean (S : List ℝ) (n0 : ℕ) : ℝ := (S.take n0).sum / (n0 : ℝ)

/-- Modelled from the spec: per-sample inversion of the steady-state formula.
The sample is normalised against the baseline, the would-be inter-pulse decay
factor is recovered, and when the forward formula has no real solution for
the sample (non-positive decay factor) the distinguished sentinel -1 is
returned for that sample instead of raising. -/
def concSsSample (TR c E0 R10 r1 Sb s : ℝ) : ℝ :=
  let Sn := s / Sb * (1 - E0) / (1 - c * E0)
  let E := (1 - Sn) / (1 - c * Sn)
  if 0 < E then (-(log E) / TR - R10) / r1 else -1

/-- Modelled from the spec: inversion of the steady-state signal model.
Baseline rate comes from T10 (possibly infinite); per-sample failures are
embedded in the output as the sentinel -1, so the output always has the same
length as the input. -/
def conc_ss (S : List ℝ) (TR FA : ℝ) (T10 : EVal) (r1 : ℝ) (n0 : ℕ) : List ℝ :=
  S.map
    (concSsSample TR (cos (rad FA)) (exp (-(TR * extInv T10))) (extInv T10) r1
      (smean S n0))

/-- Modelled from the spec: per-sample inversion of the saturation-recovery
formula, with the sentinel -1 when the sample is outside the attainable
range. -/
def concSrcSample (TC E0 R10 r1 Sb s : ℝ) : ℝ :=
  let arg := 1 - s / Sb * (1 - E0)
  if 0 < arg then (-(log arg) / TC - R10) / r1 else -1

/-- Modelled from the spec: inversion of the saturation-recovery signal
model. -/
def conc_src (S : List ℝ) (TC : ℝ) (T10 : EVal) (r1 : ℝ) (n0 : ℕ) : List ℝ :=
  S.map (concSrcSample TC (exp (-(TC * extInv T10))) (extInv T10) r1 (smean S n0))

/-- Modelled from the spec: inversion of the T2-weighted signal model; an
infinite echo time yields a zero rate change. -/
def conc_t2w (S : List ℝ) (TE : EVal) (r2 : ℝ) (n0 : ℕ) : List ℝ :=
  S.map (fun s => extDivBy (-(log (s / smean S n0))) TE / r2)

/-- Modelled from the spec: exact algebraic inversion of the linear signal
model, using the baseline rate from T10 and the baseline signal from the
first n0 samples. -/
def conc_lin (S : List ℝ) (T10 : EVal) (r1 : ℝ) (n0 : ℕ) : List ℝ :=
  S.map (fun s => (extInv T10 * (s / smean S n0) - extInv T10) / r1)

/-- Value carried by a successful call (zero for a failed call). -/
def outD : Except String ℝ → ℝ
  | .ok x => x
  | .error _ => 0

/-- The call failed with a validation error (no partial result). -/
def isErr {α : Type} (e : Except String α) : Prop := ∃ m, e = .error m

/-- A failing uncalibrated computation makes the calibrated call fail too,
whatever the reference computation does. -/
theorem calib_isErr {ref main : Except String ℝ} {S0 : ℝ} (h : isErr main) :
    isErr (ref.bind (fun sref => main.map (fun s => S0 * s / sref))) := by
  obtain ⟨m, hm⟩ := h
  cases ref with
  | error e => exact ⟨e, rfl⟩
  | ok x => exact ⟨m, by simp only [hm, Except.bind, Except.map]⟩

/-- Length-mismatched volume fractions and rates fail the steady-state call. -/
theorem signal_ss_u_vec_mismatch {S0 TR FA : ℝ} {rs vs : List ℝ}
    (h : rs.length ≠ vs.length) (Fw : FwIn) :
    signal_ss_u S0 (.vec rs) TR FA (some vs) Fw =
      .error "volume fractions and relaxation rates have mismatched lengths" := by
  simp only [signal_ss_u, if_neg h]

/-- Length-mismatched volume fractions and rates fail the SPGR call. -/
theorem signal_spgr_u_vec_mismatch {S0 TC TR FA : ℝ} {TP : Option ℝ}
    {rs vs : List ℝ} {n0 : ℕ} (h : rs.length ≠ vs.length) (Fw : FwIn) :
    signal_spgr_u S0 (.vec rs) TC TR FA TP (some vs) Fw n0 =
      .error "volume fractions and relaxation rates have mismatched lengths" := by
  simp only [signal_spgr_u, if_neg h]

/-- A non-square or asymmetric exchange matrix fails validation. -/
theorem checkFw_matrix_bad {n : ℕ} {M : List (List EVal)}
    (h : ¬ sqShape n M ∨ ¬ symmOff n M) : isErr (checkFw n (.matrix M)) := by
  rcases h with h | h
  · exact ⟨"exchange matrix dimensions must match the compartment count",
      by simp only [checkFw, if_neg h]⟩
  · by_cases hsq : sqShape n M
    · exact ⟨"exchange matrix must be symmetric",
        by simp only [checkFw, if_pos hsq, if_neg h]⟩
    · exact ⟨"exchange matrix dimensions must match the compartment count",
        by simp only [checkFw, if_neg hsq]⟩

/-- A failing exchange validation fails the steady-state call. -/
theorem signal_ss_u_checkFw_err {S0 TR FA : ℝ} {rs vs : List ℝ} {Fw : FwIn}
    (hlen : rs.length = vs.length) (h : isErr (checkFw vs.length Fw)) :
    isErr (signal_ss_u S0 (.vec rs) TR FA (some vs) Fw) := by
  obtain ⟨m, hm⟩ := h
  exact ⟨m, by simp only [signal_ss_u, if_pos hlen, hm, Except.bind]⟩

/-- A failing exchange validation fails the SPGR call. -/
theorem signal_spgr_u_checkFw_err {S0 TC TR FA : ℝ} {TP : Option ℝ}
    {rs vs : List ℝ} {Fw : FwIn} {n0 : ℕ} (hlen : rs.length = vs.length)
    (h : isErr (checkFw vs.length Fw)) :
    isErr (signal_spgr_u S0 (.vec rs) TC TR FA TP (some vs) Fw n0) := by
  obtain ⟨m, hm⟩ := h
  exact ⟨m, by simp only [signal_spgr_u, if_pos hlen, hm, Except.bind]⟩

/-- Claim C1: for every signal function that accepts both a volume-fraction
sequence v and a relaxation-rate input, if v is supplied and R1 is not a
per-compartment sequence of the same length (scalar R1, or a sequence of a
different length), the call fails with a shape-validation error and returns
no partial result.  In this model the concentration inversions take no
volume-fraction argument, so the functions accepting both are signal_ss and
signal_spgr. -/
theorem C1_v_R1_shape_validation :
    (∀ (S0 TR FA r : ℝ) (vs : List ℝ) (Fw : FwIn) (R10 : Option RIn),
      isErr (signal_ss S0 (.scalar r) TR FA (some vs) Fw R10)) ∧
    (∀ (S0 TR FA : ℝ) (rs vs : List ℝ) (Fw : FwIn) (R10 : Option RIn),
      rs.length ≠ vs.length →
      isErr (signal_ss S0 (.vec rs) TR FA (some vs) Fw R10)) ∧
    (∀ (S0 TC TR FA r : ℝ) (TP : Option ℝ) (vs : List ℝ) (Fw : FwIn) (n0 : ℕ)
        (R10 : Option RIn),
      isErr (signal_spgr S0 (.scalar r) TC TR FA TP (some vs) Fw n0 R10)) ∧
    (∀ (S0 TC TR FA : ℝ) (TP : Option ℝ) (rs vs : List ℝ) (Fw : FwIn) (n0 : ℕ)
        (R10 : Option RIn),
      rs.length ≠ vs.length →
      isErr (signal_spgr S0 (.vec rs) TC TR FA TP (some vs) Fw n0 R10)) := by
  refine ⟨?_, ?_, ?_, ?_⟩
  · intro S0 TR FA r vs Fw R10
    cases R10 with
    | none => exact ⟨_, rfl⟩
    | some rr => exact calib_isErr ⟨_, rfl⟩
  · intro S0 TR FA rs vs Fw R10 h
    cases R10 with
    | none => exact ⟨_, signal_ss_u_vec_mismatch h Fw⟩
    | some rr => exact calib_isErr ⟨_, signal_ss_u_vec_mismatch h Fw⟩
  · intro S0 TC TR FA r TP vs Fw n0 R10
    cases R10 with
    | none => exact ⟨_, rfl⟩
    | some rr => exact calib_isErr ⟨_, rfl⟩
  · intro S0 TC TR FA TP rs vs Fw n0 R10 h
    cases R10 with
    | none => exact ⟨_, signal_spgr_u_vec_mismatch h Fw⟩
    | some rr => exact calib_isErr ⟨_, signal_spgr_u_vec_mismatch h Fw⟩

/-- Witness for C1 at the concrete test inputs: a scalar R1 with a length-2
v, and a length-2 R1 with a length-3 v, for both signal functions. -/
theorem C1_v_R1_shape_validation_witness :
    isErr (signal_ss 1 (.scalar 1) 1 0 (some [0.5, 0.5]) (.scalar (.fin 0))
      none) ∧
    isErr (signal_ss 5 (.vec [1, 1]) 1 45 (some [0.1, 0.4, 0.5])
      (.scalar (.fin 0)) none) ∧
    isErr (signal_spgr 1 (.scalar 1) 1 1 0 none (some [0.5, 0.5])
      (.scalar (.fin 0)) 0 none) ∧
    isErr (signal_spgr 5 (.vec [1, 1]) 1 1 45 none (some [0.1, 0.4, 0.5])
      (.scalar (.fin 0)) 0 none) :=
  ⟨C1_v_R1_shape_validation.1 1 1 0 1 [0.5, 0.5] (.scalar (.fin 0)) none,
   C1_v_R1_shape_validation.2.1 5 1 45 [1, 1] [0.1, 0.4, 0.5]
     (.scalar (.fin 0)) none (by simp),
   C1_v_R1_shape_validation.2.2.1 1 1 1 0 1 none [0.5, 0.5]
     (.scalar (.fin 0)) 0 none,
   C1_v_R1_shape_validation.2.2.2 5 1 1 45 none [1, 1] [0.1, 0.4, 0.5]
     (.scalar (.fin 0)) 0 none (by simp)⟩

/-- Claim C2: for every multi-compartment signal call with n compartments, an
exchange matrix that is not n by n, or that is not exactly symmetric (literal
equality, so a large finite rate mirrored by true infinity also fails), makes
the call fail with a shape/consistency error before any numeric solve. -/
theorem C2_Fw_matrix_validation :
    ∀ (S0 TC TR FA : ℝ) (TP : Option ℝ) (n0 : ℕ) (rs vs : List ℝ)
      (M : List (List EVal)) (R10 : Option RIn),
      rs.length = vs.length →
      (¬ sqShape vs.length M ∨ ¬ symmOff vs.length M) →
      isErr (signal_ss S0 (.vec rs) TR FA (some vs) (.matrix M) R10) ∧
      isErr (signal_spgr S0 (.vec rs) TC TR FA TP (some vs) (.matrix M) n0
        R10) := by
  intro S0 TC TR FA TP n0 rs vs M R10 hlen hbad
  have hcf : isErr (checkFw vs.length (.matrix M)) := checkFw_matrix_bad hbad
  constructor
  · cases R10 with
    | none => exact signal_ss_u_checkFw_err hlen hcf
    | some rr => exact calib_isErr (signal_ss_u_checkFw_err hlen hcf)
  · cases R10 with
    | none => exact signal_spgr_u_checkFw_err hlen hcf
    | some rr => exact calib_isErr (signal_spgr_u_checkFw_err hlen hcf)

/-- Witness for C2: the asymmetric matrix pairing the large finite rate
1000000 with true infinity fails, and a 3 by 3 matrix with two compartments
fails, for both signal functions. -/
theorem C2_Fw_matrix_validation_witness :
    (isErr (signal_ss 1 (.vec [1, 1]) 1 10 (some [0.5, 0.5])
        (.matrix [[.fin 0.1, .fin 1000000], [.inf, .fin 1]]) none) ∧
      isErr (signal_spgr 1 (.vec [1, 1]) 1 1 10 none (some [0.5, 0.5])
        (.matrix [[.fin 0.1, .fin 1000000], [.inf, .fin 1]]) 0 none)) ∧
    (isErr (signal_ss 5 (.vec [1, 1]) 1 45 (some [0.5, 0.5])
        (.matrix (List.replicate 3 (List.replicate 3 (EVal.fin 1)))) none) ∧
      isErr (signal_spgr 5 (.vec [1, 1]) 1 1 45 none (some [0.5, 0.5])
        (.matrix (List.replicate 3 (List.replicate 3 (EVal.fin 1)))) 0
        none)) :=
  ⟨C2_Fw_matrix_validation 1 1 1 10 none 0 [1, 1] [0.5, 0.5]
      [[.fin 0.1, .fin 1000000], [.inf, .fin 1]] none (by simp)
      (Or.inr (fun hs => by
        have h01 := hs 0 1 (by norm_num) (by norm_num)
        simp only [ent, List.getD_cons_zero, List.getD_cons_succ] at h01
        exact EVal.noConfusion h01)),
   C2_Fw_matrix_validation 5 1 1 45 none 0 [1, 1] [0.5, 0.5]
      (List.replicate 3 (List.replicate 3 (EVal.fin 1))) none (by simp)
      (Or.inl (fun hs => by
        have h1 := hs.1
        simp only [List.length_replicate] at h1
        exact absurd h1 (by norm_num)))⟩

/-- Dividing two fractions over the same nonzero denominator cancels it. -/
theorem div_div_same {x y z : ℝ} (hz : z ≠ 0) : x / z / (y / z) = x / y := by
  rcases eq_or_ne y 0 with hy | hy
  · simp [hy]
  · field_simp

/-- Rational lower bound for the square root of two. -/
theorem sqrt_two_gt : (1.414 : ℝ) < Real.sqrt 2 := by
  nlinarith [Real.sq_sqrt (by norm_num : (0:ℝ) ≤ 2), Real.sqrt_nonneg 2]

/-- Rational upper bound for the square root of two. -/
theorem sqrt_two_lt : Real.sqrt 2 < (1.415 : ℝ) := by
  nlinarith [Real.sq_sqrt (by norm_num : (0:ℝ) ≤ 2), Real.sqrt_nonneg 2]

/-- Rational lower bound for the reciprocal of Euler's number. -/
theorem exp_neg_one_gt : (0.367 : ℝ) < exp (-1) := by
  rw [Real.exp_neg]
  have h1 := Real.exp_one_lt_d9
  have h2 := Real.exp_pos 1
  have h3 : Real.exp 1 * (Real.exp 1)⁻¹ = 1 := mul_inv_cancel₀ (ne_of_gt h2)
  nlinarith [inv_pos.mpr h2]

/-- Rational upper bound for the reciprocal of Euler's number. -/
theorem exp_neg_one_lt : exp (-1) < (0.368 : ℝ) := by
  rw [Real.exp_neg]
  have h1 := Real.exp_one_gt_d9
  have h2 := Real.exp_pos 1
  have h3 : Real.exp 1 * (Real.exp 1)⁻¹ = 1 := mul_inv_cancel₀ (ne_of_gt h2)
  nlinarith [inv_pos.mpr h2]

/-- The 45-degree flip angle in radians. -/
theorem rad_45_eq : rad 45 = π / 4 := by unfold rad; ring

/-- Cosine of the 45-degree flip angle. -/
theorem cos_rad_45_eq : cos (rad 45) = Real.sqrt 2 / 2 := by
  rw [rad_45_eq, Real.cos_pi_div_four]

/-- A sample equal to the baseline inverts to zero concentration in the
steady-state inversion, for any nondegenerate sequence setting. -/
theorem concSsSample_self {TR c E0 R10 r1 Sb : ℝ} (hSb : Sb ≠ 0) (hc : c ≠ 1)
    (hcE : c * E0 ≠ 1) (hTR : TR ≠ 0) (hE0 : E0 = exp (-(TR * R10))) :
    concSsSample TR c E0 R10 r1 Sb Sb = 0 := by
  have hE0pos : 0 < E0 := hE0 ▸ exp_pos _
  have hden : 1 - c * E0 ≠ 0 := sub_ne_zero.mpr (Ne.symm hcE)
  have hc1 : 1 - c ≠ 0 := sub_ne_zero.mpr (Ne.symm hc)
  simp only [concSsSample]
  rw [div_self hSb, one_mul]
  have h1 : 1 - (1 - E0) / (1 - c * E0) = E0 * (1 - c) / (1 - c * E0) := by
    field_simp
    ring
  have h2 : 1 - c * ((1 - E0) / (1 - c * E0)) = (1 - c) / (1 - c * E0) := by
    field_simp
    ring
  rw [h1, h2, div_div_same hden, mul_div_assoc, div_self hc1, mul_one,
    if_pos hE0pos, hE0, Real.log_exp, neg_neg, mul_comm TR R10, mul_div_assoc,
    div_self hTR, mul_one, sub_self, zero_div]

/-- A sample equal to the baseline inverts to zero concentration in the
saturation-recovery inversion. -/
theorem concSrcSample_self {TC E0 R10 r1 Sb : ℝ} (hSb : Sb ≠ 0) (hTC : TC ≠ 0)
    (hE0 : E0 = exp (-(TC * R10))) :
    concSrcSample TC E0 R10 r1 Sb Sb = 0 := by
  have hE0pos : 0 < E0 := hE0 ▸ exp_pos _
  simp only [concSrcSample]
  rw [div_self hSb, one_mul]
  have harg : 1 - (1 - E0) = E0 := by ring
  rw [harg, if_pos hE0pos, hE0, Real.log_exp, neg_neg, mul_comm TC R10,
    mul_div_assoc, div_self hTC, mul_one, sub_self, zero_div]

/-- A sample whose normalised value lies beyond the singular point of the
inversion is processed through the normal branch and does not produce the
sentinel, in the concrete unit setting of the specification scenario. -/
theorem concSsSample_beyond_ne {c E0 Sb s : ℝ} (hc : c ≠ 1)
    (hσ1 : 1 < s / Sb * (1 - E0) / (1 - c * E0))
    (hσ2 : 1 < c * (s / Sb * (1 - E0) / (1 - c * E0))) :
    concSsSample 1 c E0 1 1 Sb s ≠ -1 := by
  simp only [concSsSample]
  have h1 : 1 - s / Sb * (1 - E0) / (1 - c * E0) < 0 := by linarith
  have h2 : 1 - c * (s / Sb * (1 - E0) / (1 - c * E0)) < 0 := by linarith
  have hEpos : 0 < (1 - s / Sb * (1 - E0) / (1 - c * E0)) /
      (1 - c * (s / Sb * (1 - E0) / (1 - c * E0))) :=
    div_pos_of_neg_of_neg h1 h2
  rw [if_pos hEpos]
  have hEne1 : (1 - s / Sb * (1 - E0) / (1 - c * E0)) /
      (1 - c * (s / Sb * (1 - E0) / (1 - c * E0))) ≠ 1 := by
    intro h
    rw [div_eq_one_iff_eq (ne_of_lt h2)] at h
    have hzero : s / Sb * (1 - E0) / (1 - c * E0) * (1 - c) = 0 := by linarith
    rcases mul_eq_zero.mp hzero with h0 | h0
    · linarith
    · exact hc (by linarith)
  have hlog : log ((1 - s / Sb * (1 - E0) / (1 - c * E0)) /
      (1 - c * (s / Sb * (1 - E0) / (1 - c * E0)))) ≠ 0 := by
    intro h
    rcases Real.log_eq_zero.mp h with h0 | h0 | h0
    · exact absurd h0 (ne_of_gt hEpos)
    · exact hEne1 h0
    · linarith
  intro hcontra
  apply hlog
  have : -(log ((1 - s / Sb * (1 - E0) / (1 - c * E0)) /
      (1 - c * (s / Sb * (1 - E0) / (1 - c * E0))))) = 0 := by linarith
  linarith

/-- The mean of the first n0 samples of a constant series is its value. -/
theorem smean_replicate {n n0 : ℕ} {a : ℝ} (h0 : 0 < n0) (hn : n0 ≤ n) :
    smean (List.replicate n a) n0 = a := by
  unfold smean
  rw [List.take_replicate, min_eq_left hn, List.sum_replicate, nsmul_eq_mul,
    mul_comm, mul_div_assoc, div_self (by positivity : (n0:ℝ) ≠ 0), mul_one]

/-- Claim C3: conc_ss applied to the signal series [1,2,0] with baseline
T10 = 1, relaxivity r1 = 1 and n0 = 1 does not raise: it returns a series of
the same length 3, the last sample is the sentinel -1 (that signal value
being unreachable by the forward model), and the other samples are processed
normally (the baseline sample inverts to 0 and the middle sample does not
collapse to the sentinel). -/
theorem C3_conc_ss_sentinel :
    (conc_ss [1, 2, 0] 1 45 (.fin 1) 1 1).length = 3 ∧
    (conc_ss [1, 2, 0] 1 45 (.fin 1) 1 1).getD 0 0 = 0 ∧
    (conc_ss [1, 2, 0] 1 45 (.fin 1) 1 1).getD 1 0 ≠ -1 ∧
    (conc_ss [1, 2, 0] 1 45 (.fin 1) 1 1).getD 2 0 = -1 := by
  have hs2l := sqrt_two_gt
  have hs2u := sqrt_two_lt
  have hcl : (0.707 : ℝ) < cos (rad 45) := by rw [cos_rad_45_eq]; linarith
  have hcu : cos (rad 45) < (0.7075 : ℝ) := by rw [cos_rad_45_eq]; linarith
  have hc1 : cos (rad 45) ≠ 1 := by linarith
  have hE0l := exp_neg_one_gt
  have hE0u := exp_neg_one_lt
  have hinv : extInv (EVal.fin 1) = 1 := by norm_num [extInv]
  have hSb : smean [1, 2, 0] 1 = 1 := by
    norm_num [smean]
  have hcE : cos (rad 45) * exp (-1) ≠ 1 := by nlinarith
  have hd : (0 : ℝ) < 1 - cos (rad 45) * exp (-1) := by nlinarith
  unfold conc_ss
  rw [hSb, hinv]
  have hE1 : exp (-((1:ℝ) * 1)) = exp (-1) := by norm_num
  rw [hE1]
  refine ⟨rfl, ?_, ?_, ?_⟩
  · show concSsSample 1 (cos (rad 45)) (exp (-1)) 1 1 1 1 = 0
    exact concSsSample_self (by norm_num) hc1 hcE (by norm_num) (by norm_num)
  · show concSsSample 1 (cos (rad 45)) (exp (-1)) 1 1 1 2 ≠ -1
    apply concSsSample_beyond_ne hc1
    · have h21 : (2:ℝ) / 1 = 2 := by norm_num
      rw [h21, one_lt_div hd]
      nlinarith
    · have h21 : (2:ℝ) / 1 = 2 := by norm_num
      rw [h21, ← mul_div_assoc, one_lt_div hd]
      nlinarith
  · show concSsSample 1 (cos (rad 45)) (exp (-1)) 1 1 1 0 = -1
    simp only [concSsSample, zero_div, zero_mul, mul_zero, sub_zero, div_one,
      zero_lt_one, if_true, Real.log_one, neg_zero]
    norm_num

/-- Claim C9: each concentration inversion maps a constant series (every
sample equal to the baseline estimated from the first n0 samples) to the
all-zero series, for finite or infinite baselines; in particular an infinite
baseline is accepted without raising and yields an all-zero result. -/
theorem C9_constant_series_zero_concentration :
    (∀ (n n0 : ℕ) (a : ℝ) (TE : EVal) (r2 : ℝ), 0 < n0 → n0 ≤ n → a ≠ 0 →
      conc_t2w (List.replicate n a) TE r2 n0 = List.replicate n 0) ∧
    (∀ (n n0 : ℕ) (a TR FA : ℝ) (T10 : EVal) (r1 : ℝ), 0 < n0 → n0 ≤ n →
      a ≠ 0 → TR ≠ 0 → cos (rad FA) ≠ 1 →
      cos (rad FA) * exp (-(TR * extInv T10)) ≠ 1 →
      conc_ss (List.replicate n a) TR FA T10 r1 n0 = List.replicate n 0) ∧
    (∀ (n n0 : ℕ) (a TC : ℝ) (T10 : EVal) (r1 : ℝ), 0 < n0 → n0 ≤ n → a ≠ 0 →
      TC ≠ 0 → conc_src (List.replicate n a) TC T10 r1 n0 = List.replicate n 0) ∧
    (∀ (n n0 : ℕ) (a : ℝ) (T10 : EVal) (r1 : ℝ), 0 < n0 → n0 ≤ n → a ≠ 0 →
      conc_lin (List.replicate n a) T10 r1 n0 = List.replicate n 0) := by
  refine ⟨?_, ?_, ?_, ?_⟩
  · intro n n0 a TE r2 h0 hn ha
    unfold conc_t2w
    rw [smean_replicate h0 hn, List.map_replicate, div_self ha, Real.log_one,
      neg_zero]
    have hz : extDivBy 0 TE = 0 := by cases TE <;> simp [extDivBy]
    rw [hz, zero_div]
  · intro n n0 a TR FA T10 r1 h0 hn ha hTR hc hcE
    unfold conc_ss
    rw [smean_replicate h0 hn, List.map_replicate,
      concSsSample_self ha hc hcE hTR rfl]
  · intro n n0 a TC T10 r1 h0 hn ha hTC
    unfold conc_src
    rw [smean_replicate h0 hn, List.map_replicate,
      concSrcSample_self ha hTC rfl]
  · intro n n0 a T10 r1 h0 hn ha
    unfold conc_lin
    rw [smean_replicate h0 hn, List.map_replicate, div_self ha, mul_one,
      sub_self, zero_div]

/-- Witness for C9 on the constant series of ten ones with an infinite
baseline (a finite baseline for the linear inversion), matching the test
scenarios. -/
theorem C9_constant_series_zero_concentration_witness :
    conc_t2w (List.replicate 10 1) EVal.inf 1 1 = List.replicate 10 0 ∧
    conc_ss (List.replicate 10 1) 1 45 EVal.inf 1 1 = List.replicate 10 0 ∧
    conc_src (List.replicate 10 1) 1 EVal.inf 1 1 = List.replicate 10 0 ∧
    conc_lin (List.replicate 10 1) (EVal.fin 1) 1 1 = List.replicate 10 0 := by
  have hs2l := sqrt_two_gt
  have hs2u := sqrt_two_lt
  have hcu : cos (rad 45) < 1 := by rw [cos_rad_45_eq]; linarith
  have hc1 : cos (rad 45) ≠ 1 := by linarith
  refine ⟨?_, ?_, ?_, ?_⟩
  · exact C9_constant_series_zero_concentration.1 10 1 1 EVal.inf 1
      (by norm_num) (by norm_num) (by norm_num)
  · refine C9_constant_series_zero_concentration.2.1 10 1 1 1 45 EVal.inf 1
      (by norm_num) (by norm_num) (by norm_num) (by norm_num) hc1 ?_
    have : extInv EVal.inf = 0 := rfl
    rw [this]
    norm_num
    exact hc1
  · exact C9_constant_series_zero_concentration.2.2.1 10 1 1 1 EVal.inf 1
      (by norm_num) (by norm_num) (by norm_num) (by norm_num)
  · exact C9_constant_series_zero_concentration.2.2.2 10 1 1 (EVal.fin 1) 1
      (by norm_num) (by norm_num) (by norm_num)

/-- Positivity of the steady-state factor at the 45-degree, unit-TR, unit-R1
setting used by the calibration tests. -/
theorem ssRaw_valid_pos : 0 < ssRaw 1 1 45 := by
  have hs2l := sqrt_two_gt
  have hs2u := sqrt_two_lt
  have hE0l := exp_neg_one_gt
  have hE0u := exp_neg_one_lt
  have hsin : sin (rad 45) = Real.sqrt 2 / 2 := by
    rw [rad_45_eq, Real.sin_pi_div_four]
  have hcos := cos_rad_45_eq
  unfold ssRaw
  have hE : exp (-((1:ℝ) * 1)) = exp (-1) := by norm_num
  rw [hE, hsin, hcos]
  apply div_pos
  · apply mul_pos
    · linarith
    · linarith
  · nlinarith

/-- Positivity of the SPGR readout at the 45-degree, unit-TR, unit-TC,
unit-R1 setting with no preparation pulses. -/
theorem spgrRaw_valid_pos : 0 < spgrRaw 1 1 1 45 none 0 := by
  have hs2l := sqrt_two_gt
  have hs2u := sqrt_two_lt
  have hE0l := exp_neg_one_gt
  have hE0u := exp_neg_one_lt
  have hsin : sin (rad 45) = Real.sqrt 2 / 2 := by
    rw [rad_45_eq, Real.sin_pi_div_four]
  have hcos := cos_rad_45_eq
  unfold spgrRaw
  have hfl : 0 + Nat.floor ((1:ℝ) / 1) = 1 := by norm_num
  have hE : exp (-((1:ℝ) * 1)) = exp (-1) := by norm_num
  rw [hfl, hE, hsin, hcos]
  simp only [spgrM]
  have hq : (1 - Real.sqrt 2 / 2 * 1) * exp (-1) < 0.11 := by nlinarith
  have hr : (0:ℝ) < 1 - (1 - Real.sqrt 2 / 2 * 1) * exp (-1) := by linarith
  exact mul_pos (by linarith) hr

/-- Claim C5 (amended): for every call of signal_ss or signal_spgr calibrated
against a reference R10 equal to R1 (single- or multi-compartment), the
returned signal equals S0 exactly, provided the reference signal of the call
is nonzero; at degenerate sequence settings where the reference signal
vanishes (for example FA = 0, where the signal is zero for every R1) the
result is 0 instead of S0. -/
theorem C5_R10_calibration_amended :
    (∀ (S0 TR FA : ℝ) (R1 : RIn) (v : Option (List ℝ)) (Fw : FwIn) (u : ℝ),
      signal_ss_u 1 R1 TR FA v Fw = .ok u → u ≠ 0 →
      signal_ss S0 R1 TR FA v Fw (some R1) = .ok S0) ∧
    (∀ (S0 TC TR FA : ℝ) (TP : Option ℝ) (n0 : ℕ) (R1 : RIn)
        (v : Option (List ℝ)) (Fw : FwIn) (u : ℝ),
      signal_spgr_u 1 R1 TC TR FA TP v Fw n0 = .ok u → u ≠ 0 →
      signal_spgr S0 R1 TC TR FA TP v Fw n0 (some R1) = .ok S0) := by
  constructor
  · intro S0 TR FA R1 v Fw u h hu
    simp only [signal_ss, h, Except.bind, Except.map]
    rw [mul_div_assoc, div_self hu, mul_one]
  · intro S0 TC TR FA TP n0 R1 v Fw u h hu
    simp only [signal_spgr, h, Except.bind, Except.map]
    rw [mul_div_assoc, div_self hu, mul_one]

/-- Counterexample to C5 as stated: at flip angle FA = 0 the claim fails.
With S0 = 5, R1 = R10 = 1, TR = 1 the calibrated call returns 0, not S0,
because the reference signal at R10 is itself zero. -/
theorem C5_R10_calibration_counterexample :
    signal_ss 5 (.scalar 1) 1 0 none (.scalar (.fin 0)) (some (.scalar 1)) ≠
      Except.ok 5 := by
  have hraw : ssRaw 1 1 0 = 0 := by simp [ssRaw, rad]
  intro h
  simp only [signal_ss, signal_ss_u, Except.bind, Except.map, hraw] at h
  norm_num at h

/-- Witness for C5 at the test setting S0 = 5, R1 = R10 = 1, TR = 1, FA = 45,
for both signal functions. -/
theorem C5_R10_calibration_witness :
    signal_ss 5 (.scalar 1) 1 45 none (.scalar (.fin 0)) (some (.scalar 1)) =
      Except.ok 5 ∧
    signal_spgr 5 (.scalar 1) 1 1 45 none none (.scalar (.fin 0)) 0
      (some (.scalar 1)) = Except.ok 5 := by
  constructor
  · exact C5_R10_calibration_amended.1 5 1 45 (.scalar 1) none
      (.scalar (.fin 0)) (1 * ssRaw 1 1 45) rfl
      (by have := ssRaw_valid_pos; intro h; rw [one_mul] at h; linarith)
  · exact C5_R10_calibration_amended.2 5 1 1 45 none 0 (.scalar 1) none
      (.scalar (.fin 0)) (1 * spgrRaw 1 1 1 45 none 0) rfl
      (by have := spgrRaw_valid_pos; intro h; rw [one_mul] at h; linarith)

/-- Claim C6: the forward signal functions return these exact values:
signal_dsc(R1=1, R2=1, S0=1, TR=0, TE=0) is 0; signal_t2w(R2=1, S0=1, TE=0)
is 1; signal_ss(S0=1, R1=1, TR=1, FA=0) is 0; signal_lin(R1=2, S0=3) is 6. -/
theorem C6_concrete_forward_values :
    signal_dsc 1 1 1 0 0 = 0 ∧ signal_t2w 1 1 0 = 1 ∧
    signal_ss 1 (.scalar 1) 1 0 none (.scalar (.fin 0)) none = Except.ok 0 ∧
    signal_lin 2 3 = 6 := by
  refine ⟨?_, ?_, ?_, ?_⟩
  · simp [signal_dsc]
  · simp [signal_t2w]
  · simp [signal_ss, signal_ss_u, ssRaw, rad]
  · norm_num [signal_lin]

/-- Claim C10: signal_free returns 0 whenever the recovery time TC is 0 with
R10 unset (full saturation, for every R1 and FA), and returns 0 whenever
S0 = 0 (for every R1, TC, FA and R10). -/
theorem C10_signal_free_zero :
    (∀ S0 R1 FA : ℝ, signal_free S0 R1 0 FA none = 0) ∧
    (∀ (R1 TC FA : ℝ) (R10 : Option ℝ), signal_free 0 R1 TC FA R10 = 0) := by
  constructor
  · intro S0 R1 FA
    simp [signal_free, freeRaw]
  · intro R1 TC FA R10
    cases R10 <;> simp [signal_free]

/-- Claim C8: a single-compartment call (v absent, scalar R1) never requires
Fw and ignores it when supplied: for every value of Fw the call returns the
same signal as with any other value of Fw (in particular the default), and
it succeeds, raising no error because of Fw.  This holds for both
multi-compartment-capable signal functions. -/
theorem C8_single_compartment_ignores_Fw :
    (∀ (S0 r TR FA : ℝ) (Fw Fw2 : FwIn) (R10 : Option ℝ),
      signal_ss S0 (.scalar r) TR FA none Fw (R10.map RIn.scalar) =
        signal_ss S0 (.scalar r) TR FA none Fw2 (R10.map RIn.scalar) ∧
      ∃ y, signal_ss S0 (.scalar r) TR FA none Fw (R10.map RIn.scalar) = .ok y) ∧
    (∀ (S0 r TC TR FA : ℝ) (TP : Option ℝ) (n0 : ℕ) (Fw Fw2 : FwIn)
        (R10 : Option ℝ),
      signal_spgr S0 (.scalar r) TC TR FA TP none Fw n0 (R10.map RIn.scalar) =
        signal_spgr S0 (.scalar r) TC TR FA TP none Fw2 n0 (R10.map RIn.scalar) ∧
      ∃ y, signal_spgr S0 (.scalar r) TC TR FA TP none Fw n0 (R10.map RIn.scalar) =
        .ok y) := by
  constructor
  · intro S0 r TR FA Fw Fw2 R10
    cases R10 <;> exact ⟨rfl, ⟨_, rfl⟩⟩
  · intro S0 r TC TR FA TP n0 Fw Fw2 R10
    cases R10 <;> exact ⟨rfl, ⟨_, rfl⟩⟩

/-- Claim C4: conc_lin is the exact algebraic inverse of signal_lin.  For all
R1, S0 > 0, inverting the series produced by signal_lin (one baseline sample
generated at the baseline rate 1/T10 and one sample at R1), with the matching
baseline T10 and relaxivity r1, recovers R1 exactly. -/
theorem C4_conc_lin_roundtrip (R1 S0 T r1 : ℝ) (_hR1 : 0 < R1) (hS0 : 0 < S0)
    (hT : T ≠ 0) (hr1 : r1 ≠ 0) :
    extInv (EVal.fin T) +
      r1 * (conc_lin [signal_lin (1 / T) S0, signal_lin R1 S0]
        (EVal.fin T) r1 1).getD 1 0 = R1 := by
  have hS0' : S0 ≠ 0 := ne_of_gt hS0
  simp only [conc_lin, smean, signal_lin, extInv, List.take_succ_cons,
    List.take_zero, List.sum_cons, List.sum_nil, List.map_cons, List.map_nil,
    List.getD, List.getElem?_cons_succ, List.getElem?_cons_zero, Nat.cast_one,
    Option.getD_some]
  field_simp
  ring

/-- Witness for C4 at the concrete values R1 = 2, S0 = 3, T10 = 1, r1 = 1. -/
theorem C4_conc_lin_roundtrip_witness :
    extInv (EVal.fin 1) +
      1 * (conc_lin [signal_lin (1 / 1) 3, signal_lin 2 3]
        (EVal.fin 1) 1 1).getD 1 0 = 2 :=
  C4_conc_lin_roundtrip 2 3 1 1 (by norm_num) (by norm_num) (by norm_num)
    (by norm_num)

/-- Ratio of an affine function of f to f tends to the slope at infinity. -/
theorem tendsto_linear_div_self (α β : ℝ) :
    Tendsto (fun f : ℝ => (α + f * β) / f) atTop (𝓝 β) := by
  have h1 : Tendsto (fun f : ℝ => α / f) atTop (𝓝 0) :=
    tendsto_const_nhds.div_atTop tendsto_id
  have h0 : Tendsto (fun f : ℝ => α / f + β) atTop (𝓝 β) := by
    simpa using h1.add tendsto_const_nhds
  apply h0.congr'
  filter_upwards [eventually_ne_atTop (0:ℝ)] with f hf
  field_simp
  ring

/-- Affine form of the diagonal half-difference of the two-site generator. -/
theorem exD_eq (ρ1 ρ2 v1 v2 f : ℝ) :
    exD ρ1 ρ2 v1 v2 f = (ρ2 - ρ1) / 2 + f * ((1 / v2 - 1 / v1) / 2) := by
  unfold exD exA11 exA22
  ring

/-- Affine form of the half-trace of the two-site generator. -/
theorem exH_eq (ρ1 ρ2 v1 v2 f : ℝ) :
    exH ρ1 ρ2 v1 v2 f = -(ρ1 + ρ2) / 2 + f * (-((1 / v1 + 1 / v2) / 2)) := by
  unfold exH exA11 exA22
  ring

/-- Asymptotic slope of the diagonal half-difference. -/
theorem tendsto_exD_div (ρ1 ρ2 v1 v2 : ℝ) :
    Tendsto (fun f => exD ρ1 ρ2 v1 v2 f / f) atTop (𝓝 ((1 / v2 - 1 / v1) / 2)) := by
  have h := tendsto_linear_div_self ((ρ2 - ρ1) / 2) ((1 / v2 - 1 / v1) / 2)
  exact h.congr (fun f => by rw [exD_eq])

/-- Asymptotic slope of the half-trace. -/
theorem tendsto_exH_div (ρ1 ρ2 v1 v2 : ℝ) :
    Tendsto (fun f => exH ρ1 ρ2 v1 v2 f / f) atTop
      (𝓝 (-((1 / v1 + 1 / v2) / 2))) := by
  have h := tendsto_linear_div_self (-(ρ1 + ρ2) / 2) (-((1 / v1 + 1 / v2) / 2))
  exact h.congr (fun f => by rw [exH_eq])

/-- Asymptotic slope of the eigenvalue half-gap. -/
theorem tendsto_exQ_div (ρ1 ρ2 v1 v2 : ℝ) (hv1 : 0 < v1) (hv2 : 0 < v2) :
    Tendsto (fun f => exQ ρ1 ρ2 v1 v2 f / f) atTop
      (𝓝 ((1 / v1 + 1 / v2) / 2)) := by
  have hD := tendsto_exD_div ρ1 ρ2 v1 v2
  have harg : Tendsto
      (fun f => exD ρ1 ρ2 v1 v2 f / f * (exD ρ1 ρ2 v1 v2 f / f) + 1 / (v1 * v2))
      atTop
      (𝓝 ((1 / v2 - 1 / v1) / 2 * ((1 / v2 - 1 / v1) / 2) + 1 / (v1 * v2))) :=
    (hD.mul hD).add tendsto_const_nhds
  have hsq := (Real.continuous_sqrt.tendsto _).comp harg
  have hval : Real.sqrt ((1 / v2 - 1 / v1) / 2 * ((1 / v2 - 1 / v1) / 2) +
      1 / (v1 * v2)) = (1 / v1 + 1 / v2) / 2 := by
    have hid : (1 / v2 - 1 / v1) / 2 * ((1 / v2 - 1 / v1) / 2) + 1 / (v1 * v2) =
        ((1 / v1 + 1 / v2) / 2) ^ 2 := by
      field_simp
      ring
    rw [hid, Real.sqrt_sq (by positivity)]
  rw [hval] at hsq
  apply hsq.congr'
  filter_upwards [eventually_gt_atTop (0:ℝ)] with f hf
  have hnn : 0 ≤ exD ρ1 ρ2 v1 v2 f ^ 2 + f / v2 * (f / v1) := by
    have hrw : f / v2 * (f / v1) = f ^ 2 / (v2 * v1) := by ring
    rw [hrw]
    positivity
  have h1 : exD ρ1 ρ2 v1 v2 f / f * (exD ρ1 ρ2 v1 v2 f / f) + 1 / (v1 * v2) =
      (exD ρ1 ρ2 v1 v2 f ^ 2 + f / v2 * (f / v1)) / f ^ 2 := by
    field_simp
    ring
  simp only [Function.comp_apply]
  rw [h1, Real.sqrt_div hnn, Real.sqrt_sq hf.le]
  rfl

/-- Asymptotic slope of the smaller eigenvalue. -/
theorem tendsto_exLm_div (ρ1 ρ2 v1 v2 : ℝ) (hv1 : 0 < v1) (hv2 : 0 < v2) :
    Tendsto (fun f => exLm ρ1 ρ2 v1 v2 f / f) atTop (𝓝 (-(1 / v1 + 1 / v2))) := by
  have h := (tendsto_exH_div ρ1 ρ2 v1 v2).sub (tendsto_exQ_div ρ1 ρ2 v1 v2 hv1 hv2)
  rw [show -((1:ℝ) / v1 + 1 / v2) =
    -((1 / v1 + 1 / v2) / 2) - (1 / v1 + 1 / v2) / 2 from by ring]
  exact h.congr (fun f => by rw [← sub_div]; rfl)

/-- The smaller eigenvalue diverges to minus infinity with the exchange rate. -/
theorem tendsto_exLm_atBot (ρ1 ρ2 v1 v2 : ℝ) (hv1 : 0 < v1) (hv2 : 0 < v2) :
    Tendsto (fun f => exLm ρ1 ρ2 v1 v2 f) atTop atBot := by
  have hpos : (0:ℝ) < 1 / v1 + 1 / v2 := by positivity
  have hneg : -((1:ℝ) / v1 + 1 / v2) < 0 := by linarith
  have h := Filter.Tendsto.atTop_mul_neg hneg tendsto_id
    (tendsto_exLm_div ρ1 ρ2 v1 v2 hv1 hv2)
  apply h.congr'
  filter_upwards [eventually_ne_atTop (0:ℝ)] with f hf
  simp only [id_eq]
  rw [mul_comm, div_mul_cancel₀ _ hf]

/-- The fast eigenmode decay factor vanishes in the fast-exchange limit. -/
theorem tendsto_exEm_zero (ρ1 ρ2 v1 v2 TR : ℝ) (hv1 : 0 < v1) (hv2 : 0 < v2)
    (hTR : 0 < TR) :
    Tendsto (fun f => exEm ρ1 ρ2 v1 v2 f TR) atTop (𝓝 0) := by
  have h1 : Tendsto (fun f => TR * exLm ρ1 ρ2 v1 v2 f) atTop atBot :=
    Tendsto.const_mul_atBot hTR (tendsto_exLm_atBot ρ1 ρ2 v1 v2 hv1 hv2)
  exact (Real.tendsto_exp_atBot.comp h1).congr (fun f => rfl)

/-- Product of the two eigenvalues: the determinant of the generator, affine
in the exchange rate. -/
theorem exLp_mul_exLm (ρ1 ρ2 v1 v2 f : ℝ) (hv1 : 0 < v1) (hv2 : 0 < v2) :
    exLp ρ1 ρ2 v1 v2 f * exLm ρ1 ρ2 v1 v2 f =
      ρ1 * ρ2 + f * (ρ1 / v2 + ρ2 / v1) := by
  have hnn : 0 ≤ exD ρ1 ρ2 v1 v2 f ^ 2 + f / v2 * (f / v1) := by
    have hrw : f / v2 * (f / v1) = f ^ 2 / (v2 * v1) := by ring
    rw [hrw]
    positivity
  have hq2 : exQ ρ1 ρ2 v1 v2 f ^ 2 = exD ρ1 ρ2 v1 v2 f ^ 2 + f / v2 * (f / v1) :=
    Real.sq_sqrt hnn
  have h1 : exLp ρ1 ρ2 v1 v2 f * exLm ρ1 ρ2 v1 v2 f =
      exH ρ1 ρ2 v1 v2 f ^ 2 - exQ ρ1 ρ2 v1 v2 f ^ 2 := by
    unfold exLp exLm
    ring
  rw [h1, hq2]
  unfold exH exD exA11 exA22
  field_simp
  ring

/-- The larger eigenvalue converges to minus the volume-weighted mean rate. -/
theorem tendsto_exLp (ρ1 ρ2 v1 v2 : ℝ) (hv1 : 0 < v1) (hv2 : 0 < v2) :
    Tendsto (fun f => exLp ρ1 ρ2 v1 v2 f) atTop
      (𝓝 (-rhoBar ρ1 ρ2 v1 v2)) := by
  have hδ := tendsto_linear_div_self (ρ1 * ρ2) (ρ1 / v2 + ρ2 / v1)
  have hLm := tendsto_exLm_div ρ1 ρ2 v1 v2 hv1 hv2
  have hgpos : (0:ℝ) < 1 / v1 + 1 / v2 := by positivity
  have hgne : -((1:ℝ) / v1 + 1 / v2) ≠ 0 := by linarith
  have h := hδ.div hLm hgne
  have hval : (ρ1 / v2 + ρ2 / v1) / -((1:ℝ) / v1 + 1 / v2) =
      -rhoBar ρ1 ρ2 v1 v2 := by
    unfold rhoBar
    rw [div_neg]
    have hvv : v1 + v2 ≠ 0 := by positivity
    field_simp
    ring
  rw [hval] at h
  apply h.congr'
  have hev := (tendsto_exLm_atBot ρ1 ρ2 v1 v2 hv1 hv2).eventually
    (eventually_lt_atBot (0:ℝ))
  filter_upwards [eventually_gt_atTop (0:ℝ), hev] with f hf hlm
  simp only [Pi.div_apply]
  rw [div_div_same (ne_of_gt hf), ← exLp_mul_exLm ρ1 ρ2 v1 v2 f hv1 hv2,
    mul_div_cancel_right₀ _ (ne_of_lt hlm)]

/-- The slow eigenmode decay factor converges to the fast-exchange decay
factor of the mean rate. -/
theorem tendsto_exEp (ρ1 ρ2 v1 v2 TR : ℝ) (hv1 : 0 < v1) (hv2 : 0 < v2) :
    Tendsto (fun f => exEp ρ1 ρ2 v1 v2 f TR) atTop
      (𝓝 (exp (-(TR * rhoBar ρ1 ρ2 v1 v2)))) := by
  have h1 := (tendsto_exLp ρ1 ρ2 v1 v2 hv1 hv2).const_mul TR
  have h2 := (Real.continuous_exp.tendsto _).comp h1
  rw [show TR * -rhoBar ρ1 ρ2 v1 v2 = -(TR * rhoBar ρ1 ρ2 v1 v2) from by ring]
    at h2
  exact h2.congr (fun f => rfl)

/-- Limit of the normalised diagonal half-difference over the half-gap. -/
theorem tendsto_exDQ (ρ1 ρ2 v1 v2 : ℝ) (hv1 : 0 < v1) (hv2 : 0 < v2) :
    Tendsto (fun f => exD ρ1 ρ2 v1 v2 f / exQ ρ1 ρ2 v1 v2 f) atTop
      (𝓝 ((v1 - v2) / (v1 + v2))) := by
  have hgne : ((1:ℝ) / v1 + 1 / v2) / 2 ≠ 0 := by positivity
  have h := (tendsto_exD_div ρ1 ρ2 v1 v2).div
    (tendsto_exQ_div ρ1 ρ2 v1 v2 hv1 hv2) hgne
  have hval : (1 / v2 - 1 / v1) / 2 / (((1:ℝ) / v1 + 1 / v2) / 2) =
      (v1 - v2) / (v1 + v2) := by
    have hvv : v1 + v2 ≠ 0 := by positivity
    field_simp
    ring
  rw [hval] at h
  apply h.congr'
  filter_upwards [eventually_ne_atTop (0:ℝ)] with f hf
  simp only [Pi.div_apply]
  rw [div_div_same hf]

/-- Limit of the first off-diagonal coupling over the half-gap. -/
theorem tendsto_fv2Q (ρ1 ρ2 v1 v2 : ℝ) (hv1 : 0 < v1) (hv2 : 0 < v2) :
    Tendsto (fun f => f / v2 / exQ ρ1 ρ2 v1 v2 f) atTop
      (𝓝 (2 * v1 / (v1 + v2))) := by
  have hgne : ((1:ℝ) / v1 + 1 / v2) / 2 ≠ 0 := by positivity
  have hconst : Tendsto (fun _ : ℝ => 1 / v2) atTop (𝓝 (1 / v2)) :=
    tendsto_const_nhds
  have h := hconst.div (tendsto_exQ_div ρ1 ρ2 v1 v2 hv1 hv2) hgne
  have hval : 1 / v2 / (((1:ℝ) / v1 + 1 / v2) / 2) = 2 * v1 / (v1 + v2) := by
    have hvv : v1 + v2 ≠ 0 := by positivity
    field_simp
    ring
  rw [hval] at h
  apply h.congr'
  filter_upwards [eventually_ne_atTop (0:ℝ)] with f hf
  simp only [Pi.div_apply]
  have h1 : f / v2 / f = 1 / v2 := by
    rw [div_div, mul_comm v2 f, ← div_div, div_self hf]
  calc 1 / v2 / (exQ ρ1 ρ2 v1 v2 f / f)
      = f / v2 / f / (exQ ρ1 ρ2 v1 v2 f / f) := by rw [h1]
    _ = f / v2 / exQ ρ1 ρ2 v1 v2 f := div_div_same hf

/-- Limit of the second off-diagonal coupling over the half-gap. -/
theorem tendsto_fv1Q (ρ1 ρ2 v1 v2 : ℝ) (hv1 : 0 < v1) (hv2 : 0 < v2) :
    Tendsto (fun f => f / v1 / exQ ρ1 ρ2 v1 v2 f) atTop
      (𝓝 (2 * v2 / (v1 + v2))) := by
  have hgne : ((1:ℝ) / v1 + 1 / v2) / 2 ≠ 0 := by positivity
  have hconst : Tendsto (fun _ : ℝ => 1 / v1) atTop (𝓝 (1 / v1)) :=
    tendsto_const_nhds
  have h := hconst.div (tendsto_exQ_div ρ1 ρ2 v1 v2 hv1 hv2) hgne
  have hval : 1 / v1 / (((1:ℝ) / v1 + 1 / v2) / 2) = 2 * v2 / (v1 + v2) := by
    have hvv : v1 + v2 ≠ 0 := by positivity
    field_simp
    ring
  rw [hval] at h
  apply h.congr'
  filter_upwards [eventually_ne_atTop (0:ℝ)] with f hf
  simp only [Pi.div_apply]
  have h1 : f / v1 / f = 1 / v1 := by
    rw [div_div, mul_comm v1 f, ← div_div, div_self hf]
  calc 1 / v1 / (exQ ρ1 ρ2 v1 v2 f / f)
      = f / v1 / f / (exQ ρ1 ρ2 v1 v2 f / f) := by rw [h1]
    _ = f / v1 / exQ ρ1 ρ2 v1 v2 f := div_div_same hf

/-- Entry (1,1) of the evolution operator converges to its fast-exchange
projection value. -/
theorem tendsto_exE11 (ρ1 ρ2 v1 v2 TR : ℝ) (hv1 : 0 < v1) (hv2 : 0 < v2)
    (hTR : 0 < TR) :
    Tendsto (fun f => exE11 ρ1 ρ2 v1 v2 f TR) atTop
      (𝓝 (exp (-(TR * rhoBar ρ1 ρ2 v1 v2)) * (v1 / (v1 + v2)))) := by
  have hEp := tendsto_exEp ρ1 ρ2 v1 v2 TR hv1 hv2
  have hEm := tendsto_exEm_zero ρ1 ρ2 v1 v2 TR hv1 hv2 hTR
  have hDQ := tendsto_exDQ ρ1 ρ2 v1 v2 hv1 hv2
  have h := ((hEp.add hEm).div_const 2).add
    (((hEp.sub hEm).div_const 2).mul hDQ)
  have hval : (exp (-(TR * rhoBar ρ1 ρ2 v1 v2)) + 0) / 2 +
      (exp (-(TR * rhoBar ρ1 ρ2 v1 v2)) - 0) / 2 * ((v1 - v2) / (v1 + v2)) =
      exp (-(TR * rhoBar ρ1 ρ2 v1 v2)) * (v1 / (v1 + v2)) := by
    have hvv : v1 + v2 ≠ 0 := by positivity
    field_simp
    ring
  rw [hval] at h
  exact h.congr (fun f => by simp only [exE11, evC, evS])

/-- Entry (1,2) of the evolution operator converges to its fast-exchange
projection value. -/
theorem tendsto_exE12 (ρ1 ρ2 v1 v2 TR : ℝ) (hv1 : 0 < v1) (hv2 : 0 < v2)
    (hTR : 0 < TR) :
    Tendsto (fun f => exE12 ρ1 ρ2 v1 v2 f TR) atTop
      (𝓝 (exp (-(TR * rhoBar ρ1 ρ2 v1 v2)) * (v1 / (v1 + v2)))) := by
  have hEp := tendsto_exEp ρ1 ρ2 v1 v2 TR hv1 hv2
  have hEm := tendsto_exEm_zero ρ1 ρ2 v1 v2 TR hv1 hv2 hTR
  have hr := tendsto_fv2Q ρ1 ρ2 v1 v2 hv1 hv2
  have h := ((hEp.sub hEm).div_const 2).mul hr
  have hval : (exp (-(TR * rhoBar ρ1 ρ2 v1 v2)) - 0) / 2 *
      (2 * v1 / (v1 + v2)) =
      exp (-(TR * rhoBar ρ1 ρ2 v1 v2)) * (v1 / (v1 + v2)) := by
    have hvv : v1 + v2 ≠ 0 := by positivity
    field_simp
    ring
  rw [hval] at h
  exact h.congr (fun f => by simp only [exE12, evS])

/-- Entry (2,1) of the evolution operator converges to its fast-exchange
projection value. -/
theorem tendsto_exE21 (ρ1 ρ2 v1 v2 TR : ℝ) (hv1 : 0 < v1) (hv2 : 0 < v2)
    (hTR : 0 < TR) :
    Tendsto (fun f => exE21 ρ1 ρ2 v1 v2 f TR) atTop
      (𝓝 (exp (-(TR * rhoBar ρ1 ρ2 v1 v2)) * (v2 / (v1 + v2)))) := by
  have hEp := tendsto_exEp ρ1 ρ2 v1 v2 TR hv1 hv2
  have hEm := tendsto_exEm_zero ρ1 ρ2 v1 v2 TR hv1 hv2 hTR
  have hr := tendsto_fv1Q ρ1 ρ2 v1 v2 hv1 hv2
  have h := ((hEp.sub hEm).div_const 2).mul hr
  have hval : (exp (-(TR * rhoBar ρ1 ρ2 v1 v2)) - 0) / 2 *
      (2 * v2 / (v1 + v2)) =
      exp (-(TR * rhoBar ρ1 ρ2 v1 v2)) * (v2 / (v1 + v2)) := by
    have hvv : v1 + v2 ≠ 0 := by positivity
    field_simp
    ring
  rw [hval] at h
  exact h.congr (fun f => by simp only [exE21, evS])

/-- Entry (2,2) of the evolution operator converges to its fast-exchange
projection value. -/
theorem tendsto_exE22 (ρ1 ρ2 v1 v2 TR : ℝ) (hv1 : 0 < v1) (hv2 : 0 < v2)
    (hTR : 0 < TR) :
    Tendsto (fun f => exE22 ρ1 ρ2 v1 v2 f TR) atTop
      (𝓝 (exp (-(TR * rhoBar ρ1 ρ2 v1 v2)) * (v2 / (v1 + v2)))) := by
  have hEp := tendsto_exEp ρ1 ρ2 v1 v2 TR hv1 hv2
  have hEm := tendsto_exEm_zero ρ1 ρ2 v1 v2 TR hv1 hv2 hTR
  have hDQ := tendsto_exDQ ρ1 ρ2 v1 v2 hv1 hv2
  have h := ((hEp.add hEm).div_const 2).sub
    (((hEp.sub hEm).div_const 2).mul hDQ)
  have hval : (exp (-(TR * rhoBar ρ1 ρ2 v1 v2)) + 0) / 2 -
      (exp (-(TR * rhoBar ρ1 ρ2 v1 v2)) - 0) / 2 * ((v1 - v2) / (v1 + v2)) =
      exp (-(TR * rhoBar ρ1 ρ2 v1 v2)) * (v2 / (v1 + v2)) := by
    have hvv : v1 + v2 ≠ 0 := by positivity
    field_simp
    ring
  rw [hval] at h
  exact h.congr (fun f => by simp only [exE22, evC, evS])

/-- The two-compartment finite-exchange steady-state signal converges to the
fast-exchange closed form (mean-rate single-compartment formula contracted
with the total volume) as the exchange rate grows. -/
theorem tendsto_gen2Raw (ρ1 ρ2 v1 v2 TR FA : ℝ) (hv1 : 0 < v1) (hv2 : 0 < v2)
    (hTR : 0 < TR) (hρ1 : 0 < ρ1) (hρ2 : 0 < ρ2) :
    Tendsto (fun f => gen2Raw ρ1 ρ2 v1 v2 f TR FA) atTop
      (𝓝 ((v1 + v2) * ssRaw (rhoBar ρ1 ρ2 v1 v2) TR FA)) := by
  have hvv : (0:ℝ) < v1 + v2 := by linarith
  have hvvne : v1 + v2 ≠ 0 := ne_of_gt hvv
  have hρb : 0 < rhoBar ρ1 ρ2 v1 v2 := by
    unfold rhoBar
    positivity
  have hEb1 : exp (-(TR * rhoBar ρ1 ρ2 v1 v2)) < 1 := by
    rw [Real.exp_lt_one_iff]
    nlinarith
  have hEb0 : 0 < exp (-(TR * rhoBar ρ1 ρ2 v1 v2)) := exp_pos _
  have hcle : cos (rad FA) ≤ 1 := Real.cos_le_one _
  have hDpos : 0 < 1 - cos (rad FA) * exp (-(TR * rhoBar ρ1 ρ2 v1 v2)) := by
    nlinarith [mul_nonneg (sub_nonneg.mpr hcle) hEb0.le]
  have hDne : 1 - cos (rad FA) * exp (-(TR * rhoBar ρ1 ρ2 v1 v2)) ≠ 0 :=
    ne_of_gt hDpos
  have e11 := tendsto_exE11 ρ1 ρ2 v1 v2 TR hv1 hv2 hTR
  have e12 := tendsto_exE12 ρ1 ρ2 v1 v2 TR hv1 hv2 hTR
  have e21 := tendsto_exE21 ρ1 ρ2 v1 v2 TR hv1 hv2 hTR
  have e22 := tendsto_exE22 ρ1 ρ2 v1 v2 TR hv1 hv2 hTR
  have hb11 := (e11.const_mul (cos (rad FA))).const_sub 1
  have hb12 := (e12.const_mul (cos (rad FA))).neg
  have hb21 := (e21.const_mul (cos (rad FA))).neg
  have hb22 := (e22.const_mul (cos (rad FA))).const_sub 1
  have hy1 := ((e11.mul_const v1).add (e12.mul_const v2)).const_sub v1
  have hy2 := ((e21.mul_const v1).add (e22.mul_const v2)).const_sub v2
  have hN := ((hb22.mul hy1).sub (hb12.mul hy2)).add
    ((hb11.mul hy2).sub (hb21.mul hy1))
  have hDen := (hb11.mul hb22).sub (hb12.mul hb21)
  have hDval :
      (1 - cos (rad FA) * (exp (-(TR * rhoBar ρ1 ρ2 v1 v2)) * (v1 / (v1 + v2)))) *
        (1 - cos (rad FA) * (exp (-(TR * rhoBar ρ1 ρ2 v1 v2)) * (v2 / (v1 + v2)))) -
      -(cos (rad FA) * (exp (-(TR * rhoBar ρ1 ρ2 v1 v2)) * (v1 / (v1 + v2)))) *
        -(cos (rad FA) * (exp (-(TR * rhoBar ρ1 ρ2 v1 v2)) * (v2 / (v1 + v2)))) =
      1 - cos (rad FA) * exp (-(TR * rhoBar ρ1 ρ2 v1 v2)) := by
    field_simp
    ring
  rw [hDval] at hDen
  have hNval :
      (1 - cos (rad FA) * (exp (-(TR * rhoBar ρ1 ρ2 v1 v2)) * (v2 / (v1 + v2)))) *
        (v1 - (exp (-(TR * rhoBar ρ1 ρ2 v1 v2)) * (v1 / (v1 + v2)) * v1 +
          exp (-(TR * rhoBar ρ1 ρ2 v1 v2)) * (v1 / (v1 + v2)) * v2)) -
      -(cos (rad FA) * (exp (-(TR * rhoBar ρ1 ρ2 v1 v2)) * (v1 / (v1 + v2)))) *
        (v2 - (exp (-(TR * rhoBar ρ1 ρ2 v1 v2)) * (v2 / (v1 + v2)) * v1 +
          exp (-(TR * rhoBar ρ1 ρ2 v1 v2)) * (v2 / (v1 + v2)) * v2)) +
      ((1 - cos (rad FA) * (exp (-(TR * rhoBar ρ1 ρ2 v1 v2)) * (v1 / (v1 + v2)))) *
        (v2 - (exp (-(TR * rhoBar ρ1 ρ2 v1 v2)) * (v2 / (v1 + v2)) * v1 +
          exp (-(TR * rhoBar ρ1 ρ2 v1 v2)) * (v2 / (v1 + v2)) * v2)) -
      -(cos (rad FA) * (exp (-(TR * rhoBar ρ1 ρ2 v1 v2)) * (v2 / (v1 + v2)))) *
        (v1 - (exp (-(TR * rhoBar ρ1 ρ2 v1 v2)) * (v1 / (v1 + v2)) * v1 +
          exp (-(TR * rhoBar ρ1 ρ2 v1 v2)) * (v1 / (v1 + v2)) * v2))) =
      (1 - exp (-(TR * rhoBar ρ1 ρ2 v1 v2))) * (v1 + v2) := by
    field_simp
    ring
  rw [hNval] at hN
  have hfrac := hN.div hDen hDne
  have hfin := hfrac.const_mul (sin (rad FA))
  have hgoal : sin (rad FA) *
      ((1 - exp (-(TR * rhoBar ρ1 ρ2 v1 v2))) * (v1 + v2) /
        (1 - cos (rad FA) * exp (-(TR * rhoBar ρ1 ρ2 v1 v2)))) =
      (v1 + v2) * ssRaw (rhoBar ρ1 ρ2 v1 v2) TR FA := by
    unfold ssRaw
    ring
  rw [hgoal] at hfin
  apply hfin.congr'
  filter_upwards with f
  simp only [Pi.div_apply, gen2Raw]

/-- Validation of the symmetric two-compartment matrix with a finite nonzero
off-diagonal rate recognises the general finite-exchange regime. -/
theorem checkFw_gen2 (d1 d2 f : ℝ) (hf : f ≠ 0) :
    checkFw 2 (.matrix [[.fin d1, .fin f], [.fin f, .fin d2]]) =
      .ok ([d1, d2], .gen [[d1, f], [f, d2]]) := by
  have hsq : sqShape 2 [[EVal.fin d1, EVal.fin f], [EVal.fin f, EVal.fin d2]] := by
    refine ⟨rfl, ?_⟩
    intro row hrow
    rcases List.mem_cons.mp hrow with h | h2
    · rw [h]
      rfl
    · rcases List.mem_cons.mp h2 with h | h
      · rw [h]
        rfl
      · exact absurd h (List.not_mem_nil _)
  have hsym : symmOff 2 [[EVal.fin d1, EVal.fin f], [EVal.fin f, EVal.fin d2]] := by
    intro i j hi hj
    interval_cases i <;> interval_cases j <;> rfl
  have hdiag : diagFin 2 [[EVal.fin d1, EVal.fin f], [EVal.fin f, EVal.fin d2]] := by
    intro i hi
    interval_cases i
    · exact ⟨d1, rfl⟩
    · exact ⟨d2, rfl⟩
  have hnz : ¬ allOffZero 2 [[EVal.fin d1, EVal.fin f], [EVal.fin f, EVal.fin d2]] := by
    intro h
    have h01 := h 0 1 (by norm_num) (by norm_num) (by norm_num)
    simp only [ent, List.getD_cons_zero, List.getD_cons_succ, EVal.fin.injEq]
      at h01
    exact hf h01
  have hni : ¬ allOffInf 2 [[EVal.fin d1, EVal.fin f], [EVal.fin f, EVal.fin d2]] := by
    intro h
    exact EVal.noConfusion (h 0 1 (by norm_num) (by norm_num) (by norm_num))
  have hfin : allOffFin 2 [[EVal.fin d1, EVal.fin f], [EVal.fin f, EVal.fin d2]] := by
    intro i j hi hj hij
    interval_cases i <;> interval_cases j
    · exact absurd rfl hij
    · exact ⟨f, rfl⟩
    · exact ⟨f, rfl⟩
    · exact absurd rfl hij
  simp only [checkFw]
  rw [if_pos hsq, if_pos hsym, if_pos hdiag, if_neg hnz, if_neg hni,
    if_pos hfin]
  rfl

/-- Validation of the symmetric two-compartment matrix with infinite
off-diagonal rates recognises the fast-exchange regime. -/
theorem checkFw_fast2 (d1 d2 : ℝ) :
    checkFw 2 (.matrix [[.fin d1, .inf], [.inf, .fin d2]]) =
      .ok ([d1, d2], .fast) := by
  have hsq : sqShape 2 [[EVal.fin d1, EVal.inf], [EVal.inf, EVal.fin d2]] := by
    refine ⟨rfl, ?_⟩
    intro row hrow
    rcases List.mem_cons.mp hrow with h | h2
    · rw [h]
      rfl
    · rcases List.mem_cons.mp h2 with h | h
      · rw [h]
        rfl
      · exact absurd h (List.not_mem_nil _)
  have hsym : symmOff 2 [[EVal.fin d1, EVal.inf], [EVal.inf, EVal.fin d2]] := by
    intro i j hi hj
    interval_cases i <;> interval_cases j <;> rfl
  have hdiag : diagFin 2 [[EVal.fin d1, EVal.inf], [EVal.inf, EVal.fin d2]] := by
    intro i hi
    interval_cases i
    · exact ⟨d1, rfl⟩
    · exact ⟨d2, rfl⟩
  have hnz : ¬ allOffZero 2 [[EVal.fin d1, EVal.inf], [EVal.inf, EVal.fin d2]] := by
    intro h
    exact EVal.noConfusion (h 0 1 (by norm_num) (by norm_num) (by norm_num))
  have hinf : allOffInf 2 [[EVal.fin d1, EVal.inf], [EVal.inf, EVal.fin d2]] := by
    intro i j hi hj hij
    interval_cases i <;> interval_cases j
    · exact absurd rfl hij
    · rfl
    · rfl
    · exact absurd rfl hij
  simp only [checkFw]
  rw [if_pos hsq, if_pos hsym, if_pos hdiag, if_neg hnz, if_pos hinf]
  rfl

/-- The two-compartment general solve dispatch reads the off-diagonal rate
and applies the closed-form two-site solve. -/
theorem mcSsRaw_gen2 (r1 r2 d1 d2 v1 v2 f TR FA : ℝ) :
    mcSsRaw [r1, r2] [v1, v2] [d1, d2] (.gen [[d1, f], [f, d2]]) TR FA =
      .ok (gen2Raw (r1 + d1 / v1) (r2 + d2 / v2) v1 v2 f TR FA) := rfl

/-- The two-compartment fast-exchange dispatch computes the mean-rate closed
form. -/
theorem mcSsRaw_fast2 (r1 r2 d1 d2 v1 v2 TR FA : ℝ) :
    mcSsRaw [r1, r2] [v1, v2] [d1, d2] .fast TR FA =
      .ok ((v1 + v2) *
        ssRaw (rhoBar (r1 + d1 / v1) (r2 + d2 / v2) v1 v2) TR FA) := by
  show Except.ok _ = Except.ok _
  norm_num [mcSsRaw, meanRate, dotL, rhoList, rhoBar]

/-- Evaluation of the steady-state call on the finite symmetric
two-compartment exchange matrix. -/
theorem signal_ss_gen2_eval (S0 r1 r2 d1 d2 v1 v2 f TR FA : ℝ) (hf : f ≠ 0) :
    signal_ss S0 (.vec [r1, r2]) TR FA (some [v1, v2])
      (.matrix [[.fin d1, .fin f], [.fin f, .fin d2]]) none =
      .ok (S0 * gen2Raw (r1 + d1 / v1) (r2 + d2 / v2) v1 v2 f TR FA) := by
  simp only [signal_ss, signal_ss_u]
  rw [if_pos (show ([r1, r2] : List ℝ).length = ([v1, v2] : List ℝ).length
    from rfl), show ([v1, v2] : List ℝ).length = 2 from rfl,
    checkFw_gen2 d1 d2 f hf]
  rfl

/-- Evaluation of the steady-state call on the infinite symmetric
two-compartment exchange matrix. -/
theorem signal_ss_fast2_eval (S0 r1 r2 d1 d2 v1 v2 TR FA : ℝ) :
    signal_ss S0 (.vec [r1, r2]) TR FA (some [v1, v2])
      (.matrix [[.fin d1, .inf], [.inf, .fin d2]]) none =
      .ok (S0 * ((v1 + v2) *
        ssRaw (rhoBar (r1 + d1 / v1) (r2 + d2 / v2) v1 v2) TR FA)) := by
  simp only [signal_ss, signal_ss_u]
  rw [if_pos (show ([r1, r2] : List ℝ).length = ([v1, v2] : List ℝ).length
    from rfl), show ([v1, v2] : List ℝ).length = 2 from rfl, checkFw_fast2]
  show (mcSsRaw [r1, r2] [v1, v2] [d1, d2] .fast TR FA).map _ = _
  rw [mcSsRaw_fast2]
  rfl

/-- Two-site instance of the fast-exchange continuity requirement: the
two-compartment steady-state call with a symmetric finite exchange matrix
converges to the call with true infinity in place of the off-diagonal rates
as the exchange rate grows without bound. -/
theorem signal_ss_two_site_fast_exchange_limit (S0 r1 r2 d1 d2 v1 v2 TR FA : ℝ)
    (hv1 : 0 < v1) (hv2 : 0 < v2) (hTR : 0 < TR)
    (hρ1 : 0 < r1 + d1 / v1) (hρ2 : 0 < r2 + d2 / v2) :
    Tendsto
      (fun f => outD (signal_ss S0 (.vec [r1, r2]) TR FA (some [v1, v2])
        (.matrix [[.fin d1, .fin f], [.fin f, .fin d2]]) none))
      atTop
      (𝓝 (outD (signal_ss S0 (.vec [r1, r2]) TR FA (some [v1, v2])
        (.matrix [[.fin d1, .inf], [.inf, .fin d2]]) none))) := by
  rw [signal_ss_fast2_eval]
  have hcore := (tendsto_gen2Raw (r1 + d1 / v1) (r2 + d2 / v2) v1 v2 TR FA
    hv1 hv2 hTR hρ1 hρ2).const_mul S0
  apply hcore.congr'
  filter_upwards [eventually_ne_atTop (0:ℝ)] with f hf
  rw [signal_ss_gen2_eval S0 r1 r2 d1 d2 v1 v2 f TR FA hf]
  rfl

end Sig

end
